import Mathlib

/-!
Verification of `lib/IDE/AfterPoundExprCompletion.cpp`.

The file is a shallow embedding of the two member functions
`AfterPoundExprCompletion::sawSolutionImpl` and
`AfterPoundExprCompletion::deliverResults`.

Modelling choices:
* a Swift `Type` value is a nullable pointer to a type descriptor, embedded as
  `Option SwiftType`; `TypeBase::isEqual` (structural equality of types) is
  embedded as equality of the descriptors, and dereferencing a null pointer is
  embedded as the `none` outcome of an `Option`-valued computation;
* the collaborator calls `getTypeForCompletion`, `isContextAsync` and
  `isImplicitSingleExpressionReturn` are side-effect free queries, so their
  results are taken as parameters of `sawSolutionImpl`;
* the `CompletionLookup` engine is observed through the trace of calls issued
  to it, embedded as a list of `LookupEvent`s; `deliverResults` transforms a
  state holding the collected results and the trace.
-/

namespace AfterPoundExprCompletion

/-- Descriptor of a Swift type; structural equality (`TypeBase::isEqual`) is
equality of descriptors. -/
structure SwiftType where
  id : Nat
deriving DecidableEq

/-- Embedding of a `Type` value: a nullable pointer, `none` is the null type. -/
abbrev TypePtr := Option SwiftType

/-- Embedding of `AfterPoundExprCompletion::Result` with its three fields. -/
structure Result where
  ExpectedTy : TypePtr
  IsImplicitSingleExpressionReturn : Bool
  IsAsync : Bool
deriving DecidableEq

/-- Embedding of `R.ExpectedTy->isEqual(ExpectedTy)`: both pointers are
dereferenced; `none` models the null-pointer dereference. -/
def isEqualDeref : TypePtr → TypePtr → Option Bool
  | some a, some b => some (decide (a = b))
  | _, _ => none

/-- Embedding of `llvm::any_of` with a fallible predicate: evaluates the
predicate left to right, short-circuits on the first `true`, and propagates a
crash (`none`) of a predicate evaluation. -/
def anyOfM (p : Result → Option Bool) : List Result → Option Bool
  | [] => some false
  | r :: rs =>
    match p r with
    | none => none
    | some true => some true
    | some false => anyOfM p rs

/-- Embedding of `AfterPoundExprCompletion::sawSolutionImpl`.  `ExpectedTy` is
the value of `getTypeForCompletion(S, CompletionExpr)` (possibly null),
`SingleExprBody` the value of `isImplicitSingleExpressionReturn(CS,
CompletionExpr)` and `IsAsync` the value of `isContextAsync(S, DC)`.  Returns
the new result list, or `none` when the deduplication scan dereferences a null
type. -/
def sawSolutionImpl (Results : List Result) (ExpectedTy : TypePtr)
    (SingleExprBody IsAsync : Bool) : Option (List Result) :=
  match anyOfM (fun R => isEqualDeref R.ExpectedTy ExpectedTy) Results with
  | none => none
  | some true => some Results
  | some false => some (Results ++ [⟨ExpectedTy, SingleExprBody, IsAsync⟩])

/-- Runs a sequence of `sawSolutionImpl` calls, one per recorded solution,
each given by its derived expected type and flags. -/
def recordAll (Results : List Result) :
    List (TypePtr × Bool × Bool) → Option (List Result)
  | [] => some Results
  | (t, f, a) :: cs =>
    match sawSolutionImpl Results t f a with
    | none => none
    | some rs => recordAll rs cs

/-- Calls issued by `deliverResults` to the `CompletionLookup` engine, plus the
final hand-off to `deliverCompletionResults`. -/
inductive LookupEvent where
  | shouldCheckForDuplicates (flag : Bool)
  | setExpectedTypes (tys : List TypePtr)
      (isImplicitSingleExprReturn : Bool) (expectsNonVoid : Bool)
  | addPoundAvailable (parentStmtKind : Nat)
  | addPoundLiteralCompletions (needPound : Bool)
  | addObjCPoundKeywordCompletions (needPound : Bool)
  | getMacroCompletions (needPound : Bool)
  | deliverCompletionResults
deriving DecidableEq

/-- State acted on by `deliverResults`: the collected result list (a member of
the completion object) and the trace of calls issued so far. -/
structure DeliverState where
  Results : List Result
  trace : List LookupEvent
deriving DecidableEq

/-- Body of the `for (auto &Result : Results)` loop: the five calls issued for
one result, in source order. -/
def perResultCalls (ParentStmtKind : Nat) (R : Result) : List LookupEvent :=
  [ .setExpectedTypes [R.ExpectedTy] R.IsImplicitSingleExpressionReturn true,
    .addPoundAvailable ParentStmtKind,
    .addPoundLiteralCompletions false,
    .addObjCPoundKeywordCompletions false,
    .getMacroCompletions false ]

/-- Embedding of `AfterPoundExprCompletion::deliverResults`: sets the
duplicate-checking mode from the result count, loops over the results issuing
the completion requests, then hands off to `deliverCompletionResults`.  The
`ParentStmtKind` member is abstracted as a numeric parameter. -/
def deliverResults (ParentStmtKind : Nat) (s : DeliverState) : DeliverState :=
  let s1 : DeliverState :=
    { s with trace :=
        s.trace ++ [.shouldCheckForDuplicates (decide (1 < s.Results.length))] }
  let s2 : DeliverState :=
    s1.Results.foldl
      (fun st R => { st with trace := st.trace ++ perResultCalls ParentStmtKind R })
      s1
  { s2 with trace := s2.trace ++ [.deliverCompletionResults] }

/-- Duplicate-checking-mode flags passed to the lookup engine, in trace order. -/
def dupCheckCalls (tr : List LookupEvent) : List Bool :=
  tr.filterMap fun e =>
    match e with
    | .shouldCheckForDuplicates b => some b
    | _ => none

/-- Arguments of the `setExpectedTypes` calls issued, in trace order. -/
def setExpectedTypesCalls (tr : List LookupEvent) :
    List (List TypePtr × Bool × Bool) :=
  tr.filterMap fun e =>
    match e with
    | .setExpectedTypes tys f nv => some (tys, f, nv)
    | _ => none

/-- Recognises the calls that configure the lookup engine (duplicate-checking
mode and expectation installation). -/
def isConfigCall : LookupEvent → Bool
  | .shouldCheckForDuplicates _ => true
  | .setExpectedTypes _ _ _ => true
  | _ => false

/-- Recognises the four completion-request calls. -/
def isCompletionRequest : LookupEvent → Bool
  | .addPoundAvailable _ => true
  | .addPoundLiteralCompletions _ => true
  | .addObjCPoundKeywordCompletions _ => true
  | .getMacroCompletions _ => true
  | _ => false

/-- Recognises the final hand-off call. -/
def isDeliverCall : LookupEvent → Bool
  | .deliverCompletionResults => true
  | _ => false

/-- The data-model invariant: no two collected results have structurally equal
expected types. -/
def NoDupExpectedTy (rs : List Result) : Prop :=
  rs.Pairwise fun x y => x.ExpectedTy ≠ y.ExpectedTy

/-! ## Helper lemmas about the deduplication scan -/

theorem anyOfM_false_iff (p : Result → Option Bool) (rs : List Result) :
    anyOfM p rs = some false ↔ ∀ r ∈ rs, p r = some false := by
  induction rs with
  | nil => simp [anyOfM]
  | cons r rs ih =>
    cases hp : p r with
    | none => simp [anyOfM, hp]
    | some b => cases b <;> simp [anyOfM, hp, ih]

theorem anyOfM_append_false (p : Result → Option Bool) (l₁ l₂ : List Result)
    (h : anyOfM p l₁ = some false) : anyOfM p (l₁ ++ l₂) = anyOfM p l₂ := by
  induction l₁ with
  | nil => simp
  | cons r rs ih =>
    cases hp : p r with
    | none => simp [anyOfM, hp] at h
    | some b =>
      cases b
      · simp only [anyOfM, hp] at h ⊢
        exact ih h
      · simp [anyOfM, hp] at h

theorem anyOfM_isSome (p : Result → Option Bool) (rs : List Result)
    (hnn : ∀ r ∈ rs, ∃ b, p r = some b) : ∃ b, anyOfM p rs = some b := by
  induction rs with
  | nil => exact ⟨false, rfl⟩
  | cons r rs ih =>
    obtain ⟨b, hb⟩ := hnn r (List.mem_cons_self r rs)
    cases b
    · simpa [anyOfM, hb] using ih fun x hx => hnn x (List.mem_cons_of_mem r hx)
    · exact ⟨true, by simp [anyOfM, hb]⟩

theorem anyOfM_true_of_mem (p : Result → Option Bool) (rs : List Result)
    (hnn : ∀ r ∈ rs, ∃ b, p r = some b)
    (h : ∃ r ∈ rs, p r = some true) : anyOfM p rs = some true := by
  induction rs with
  | nil => simp at h
  | cons r rs ih =>
    obtain ⟨b, hb⟩ := hnn r (List.mem_cons_self r rs)
    cases b
    · simp only [anyOfM, hb]
      rcases h with ⟨x, hx, hpx⟩
      rcases List.mem_cons.mp hx with rfl | hx'
      · rw [hb] at hpx; cases hpx
      · exact ih (fun y hy => hnn y (List.mem_cons_of_mem r hy)) ⟨x, hx', hpx⟩
    · simp [anyOfM, hb]

theorem ne_of_isEqualDeref_false (x y : TypePtr)
    (h : isEqualDeref x y = some false) : x ≠ y := by
  cases x <;> cases y <;> simp [isEqualDeref] at h ⊢
  exact h

theorem isEqualDeref_self (t : SwiftType) :
    isEqualDeref (some t) (some t) = some true := by
  simp [isEqualDeref]

theorem sawSolutionImpl_cases (rs : List Result) (ty : TypePtr) (f a : Bool)
    (rs' : List Result) (h : sawSolutionImpl rs ty f a = some rs') :
    (anyOfM (fun R => isEqualDeref R.ExpectedTy ty) rs = some true ∧ rs' = rs) ∨
    (anyOfM (fun R => isEqualDeref R.ExpectedTy ty) rs = some false ∧
      rs' = rs ++ [⟨ty, f, a⟩]) := by
  unfold sawSolutionImpl at h
  cases hscan : anyOfM (fun R => isEqualDeref R.ExpectedTy ty) rs with
  | none => rw [hscan] at h; cases h
  | some b =>
    rw [hscan] at h
    cases b
    · right; exact ⟨rfl, (Option.some.injEq _ _ ▸ h).symm⟩
    · left; exact ⟨rfl, (Option.some.injEq _ _ ▸ h).symm⟩

theorem noDup_step (rs : List Result) (ty : TypePtr) (f a : Bool)
    (rs' : List Result) (hinv : NoDupExpectedTy rs)
    (h : sawSolutionImpl rs ty f a = some rs') : NoDupExpectedTy rs' := by
  rcases sawSolutionImpl_cases rs ty f a rs' h with ⟨_, rfl⟩ | ⟨hscan, rfl⟩
  · exact hinv
  · rw [anyOfM_false_iff] at hscan
    unfold NoDupExpectedTy at hinv ⊢
    rw [List.pairwise_append]
    refine ⟨hinv, by simp, ?_⟩
    intro x hx y hy
    have hy' : y = ⟨ty, f, a⟩ := by simpa using hy
    subst hy'
    exact ne_of_isEqualDeref_false x.ExpectedTy ty (hscan x hx)

theorem recordAll_noDup (cs : List (TypePtr × Bool × Bool)) (rs rs' : List Result)
    (hinv : NoDupExpectedTy rs) (h : recordAll rs cs = some rs') :
    NoDupExpectedTy rs' := by
  induction cs generalizing rs with
  | nil =>
    simp only [recordAll, Option.some.injEq] at h
    exact h ▸ hinv
  | cons c cs ih =>
    obtain ⟨t, f, a⟩ := c
    unfold recordAll at h
    cases hstep : sawSolutionImpl rs t f a with
    | none => rw [hstep] at h; cases h
    | some rs1 =>
      rw [hstep] at h
      exact ih rs1 (noDup_step rs t f a rs1 hinv hstep) h

/-! ## Helper lemmas about the delivery trace -/

theorem foldl_perResult_trace (k : Nat) (rs R0 : List Result)
    (t : List LookupEvent) :
    (rs.foldl (fun st R => { st with trace := st.trace ++ perResultCalls k R })
        (⟨R0, t⟩ : DeliverState)) =
      ⟨R0, t ++ (rs.map (perResultCalls k)).flatten⟩ := by
  induction rs generalizing t with
  | nil => simp
  | cons R rs ih =>
    simp only [List.foldl_cons, List.map_cons, List.flatten]
    rw [ih, List.append_assoc]

theorem deliverResults_trace_eq (k : Nat) (rs : List Result)
    (t0 : List LookupEvent) :
    (deliverResults k ⟨rs, t0⟩).trace =
      t0 ++ [LookupEvent.shouldCheckForDuplicates (decide (1 < rs.length))]
        ++ (rs.map (perResultCalls k)).flatten
        ++ [LookupEvent.deliverCompletionResults] := by
  dsimp only [deliverResults]
  rw [foldl_perResult_trace]

theorem deliverResults_Results_eq (k : Nat) (s : DeliverState) :
    (deliverResults k s).Results = s.Results := by
  obtain ⟨rs, t0⟩ := s
  dsimp only [deliverResults]
  rw [foldl_perResult_trace]

theorem dupCheckCalls_append (l₁ l₂ : List LookupEvent) :
    dupCheckCalls (l₁ ++ l₂) = dupCheckCalls l₁ ++ dupCheckCalls l₂ :=
  List.filterMap_append l₁ l₂ _

theorem dupCheckCalls_loop (k : Nat) (rs : List Result) :
    dupCheckCalls ((rs.map (perResultCalls k)).flatten) = [] := by
  induction rs with
  | nil => rfl
  | cons R rs ih =>
    simp only [List.map_cons, List.flatten]
    rw [dupCheckCalls_append, ih]
    rfl

theorem setExpectedTypesCalls_append (l₁ l₂ : List LookupEvent) :
    setExpectedTypesCalls (l₁ ++ l₂) =
      setExpectedTypesCalls l₁ ++ setExpectedTypesCalls l₂ :=
  List.filterMap_append l₁ l₂ _

theorem setExpectedTypesCalls_loop (k : Nat) (rs : List Result) :
    setExpectedTypesCalls ((rs.map (perResultCalls k)).flatten) =
      rs.map fun R => ([R.ExpectedTy], R.IsImplicitSingleExpressionReturn, true) := by
  induction rs with
  | nil => rfl
  | cons R rs ih =>
    simp only [List.map_cons, List.flatten]
    rw [setExpectedTypesCalls_append, ih]
    rfl

theorem countP_deliver_loop (k : Nat) (rs : List Result) :
    ((rs.map (perResultCalls k)).flatten).countP isDeliverCall = 0 := by
  induction rs with
  | nil => rfl
  | cons R rs ih =>
    simp only [List.map_cons, List.flatten]
    rw [List.countP_append, ih]
    rfl

/-! ## Claim theorems -/

/-- Claim C1: reading the metavariables `T1`, `T2`, `T3` as pairwise distinct
types (the claim singles out the two occurrences written `T1` as the
structurally equal ones), a pass recording solutions whose derived expected
types are `[T1, T2, T1, T3]` leaves exactly three results with expected types
`[T1, T2, T3]` in insertion order, and the
`IsImplicitSingleExpressionReturn`/`IsAsync` flags stored for `T1` are the
ones derived at its first occurrence. -/
theorem sawSolution_seq_T1T2T1T3 (T1 T2 T3 : SwiftType)
    (f1 a1 f2 a2 f3 a3 f4 a4 : Bool)
    (h12 : T1 ≠ T2) (h13 : T1 ≠ T3) (h23 : T2 ≠ T3) :
    recordAll [] [(some T1, f1, a1), (some T2, f2, a2),
        (some T1, f3, a3), (some T3, f4, a4)] =
      some [⟨some T1, f1, a1⟩, ⟨some T2, f2, a2⟩, ⟨some T3, f4, a4⟩] := by
  simp [recordAll, sawSolutionImpl, anyOfM, isEqualDeref, h12, h13, h23]

/-- Witness for claim C1 at the concrete types `0`, `1`, `2`. -/
theorem sawSolution_seq_T1T2T1T3_witness :
    recordAll [] [(some ⟨0⟩, true, false), (some ⟨1⟩, false, true),
        (some ⟨0⟩, false, false), (some ⟨2⟩, true, true)] =
      some [⟨some ⟨0⟩, true, false⟩, ⟨some ⟨1⟩, false, true⟩,
        ⟨some ⟨2⟩, true, true⟩] :=
  sawSolution_seq_T1T2T1T3 ⟨0⟩ ⟨1⟩ ⟨2⟩ true false false true false false
    true true (by decide) (by decide) (by decide)

/-- Claim C2: every successful `sawSolutionImpl` call preserves the invariant
that no two results have structurally equal expected types, and after every
successful sequence of calls starting from the empty list the invariant
holds. -/
theorem sawSolution_noDup_invariant :
    (∀ (rs : List Result) (ty : TypePtr) (f a : Bool) (rs' : List Result),
        NoDupExpectedTy rs → sawSolutionImpl rs ty f a = some rs' →
        NoDupExpectedTy rs') ∧
    (∀ (cs : List (TypePtr × Bool × Bool)) (rs' : List Result),
        recordAll [] cs = some rs' → NoDupExpectedTy rs') :=
  ⟨fun rs ty f a rs' hinv h => noDup_step rs ty f a rs' hinv h,
    fun cs rs' h => recordAll_noDup cs [] rs' List.Pairwise.nil h⟩

/-- Witness for claim C2 on a concrete two-call sequence. -/
theorem sawSolution_noDup_invariant_witness :
    NoDupExpectedTy [⟨some ⟨0⟩, false, false⟩, ⟨some ⟨1⟩, true, true⟩] :=
  sawSolution_noDup_invariant.2
    [(some ⟨0⟩, false, false), (some ⟨1⟩, true, true)]
    [⟨some ⟨0⟩, false, false⟩, ⟨some ⟨1⟩, true, true⟩] (by decide)

/-- Claim C3: recording a second solution with the same (structurally equal)
expected type leaves the result list exactly as after the first call, whatever
flags the second solution derives. -/
theorem sawSolution_idempotent (rs rs' : List Result) (t : SwiftType)
    (f1 a1 f2 a2 : Bool)
    (h : sawSolutionImpl rs (some t) f1 a1 = some rs') :
    sawSolutionImpl rs' (some t) f2 a2 = some rs' := by
  rcases sawSolutionImpl_cases rs (some t) f1 a1 rs' h with
    ⟨hscan, rfl⟩ | ⟨hscan, rfl⟩
  · unfold sawSolutionImpl; rw [hscan]
  · unfold sawSolutionImpl
    rw [anyOfM_append_false _ _ _ hscan]
    simp [anyOfM, isEqualDeref]

/-- Witness for claim C3 on a concrete repeated type. -/
theorem sawSolution_idempotent_witness :
    sawSolutionImpl [⟨some ⟨0⟩, true, false⟩] (some ⟨0⟩) false true =
      some [⟨some ⟨0⟩, true, false⟩] :=
  sawSolution_idempotent [] [⟨some ⟨0⟩, true, false⟩] ⟨0⟩ true false false
    true (by decide)

/-- Claim C4: when the deduplication scan finds a structurally equal expected
type among the (non-null) stored results, `sawSolutionImpl` returns the result
list exactly unchanged: no entry added, removed, reordered, and no flag of any
earlier entry altered. -/
theorem sawSolution_duplicate_noop (rs : List Result) (t : SwiftType)
    (f a : Bool) (hnn : ∀ r ∈ rs, r.ExpectedTy.isSome)
    (hdup : ∃ r ∈ rs, r.ExpectedTy = some t) :
    sawSolutionImpl rs (some t) f a = some rs := by
  have hscan :
      anyOfM (fun R => isEqualDeref R.ExpectedTy (some t)) rs = some true := by
    apply anyOfM_true_of_mem
    · intro r hr
      obtain ⟨x, hx⟩ := Option.isSome_iff_exists.mp (hnn r hr)
      exact ⟨decide (x = t), by simp [isEqualDeref, hx]⟩
    · obtain ⟨r, hr, ht⟩ := hdup
      exact ⟨r, hr, by simp [isEqualDeref, ht]⟩
  unfold sawSolutionImpl
  rw [hscan]

/-- Witness for claim C4 on a concrete duplicate. -/
theorem sawSolution_duplicate_noop_witness :
    sawSolutionImpl [⟨some ⟨1⟩, true, true⟩, ⟨some ⟨2⟩, false, false⟩]
        (some ⟨2⟩) false true =
      some [⟨some ⟨1⟩, true, true⟩, ⟨some ⟨2⟩, false, false⟩] :=
  sawSolution_duplicate_noop
    [⟨some ⟨1⟩, true, true⟩, ⟨some ⟨2⟩, false, false⟩] ⟨2⟩ false true
    (by decide) (by decide)

/-- Claim C5: the duplicate-checking mode passed to the lookup engine is
disabled when exactly one result is present and enabled when two or more
results are present. -/
theorem deliverResults_dupCheck_mode (k : Nat) (rs : List Result) :
    (rs.length = 1 →
      dupCheckCalls (deliverResults k ⟨rs, []⟩).trace = [false]) ∧
    (2 ≤ rs.length →
      dupCheckCalls (deliverResults k ⟨rs, []⟩).trace = [true]) := by
  have htr := deliverResults_trace_eq k rs []
  constructor
  · intro h1
    rw [htr, List.nil_append, dupCheckCalls_append, dupCheckCalls_append,
      dupCheckCalls_loop, h1]
    simp [dupCheckCalls]
  · intro h2
    rw [htr, List.nil_append, dupCheckCalls_append, dupCheckCalls_append,
      dupCheckCalls_loop]
    have hlt : 1 < rs.length := h2
    simp [dupCheckCalls, hlt]

/-- Witness for claim C5 at result lists of lengths one and two. -/
theorem deliverResults_dupCheck_mode_witness :
    dupCheckCalls (deliverResults 0 ⟨[⟨some ⟨0⟩, false, false⟩], []⟩).trace
        = [false] ∧
    dupCheckCalls (deliverResults 0
        ⟨[⟨some ⟨0⟩, false, false⟩, ⟨some ⟨1⟩, true, true⟩], []⟩).trace
        = [true] :=
  ⟨(deliverResults_dupCheck_mode 0 [⟨some ⟨0⟩, false, false⟩]).1 (by decide),
    (deliverResults_dupCheck_mode 0
        [⟨some ⟨0⟩, false, false⟩, ⟨some ⟨1⟩, true, true⟩]).2 (by decide)⟩

/-- Claim C6 counterexample: with zero recorded results `deliverResults` still
performs a lookup-engine configuration call, namely
`shouldCheckForDuplicates(false)`, so the count of configuration calls is not
zero as the claim states. -/
theorem deliverResults_empty_config_counterexample :
    ¬ ((deliverResults 0 ⟨[], []⟩).trace.countP isConfigCall = 0) := by
  decide

/-- Claim C6 amended: with zero recorded results `deliverResults` issues zero
completion-request calls (hence produces zero completion entries) and performs
no per-result configuration; its only lookup-engine calls are the single
unconditional duplicate-checking-mode configuration (disabled) followed by the
final hand-off. -/
theorem deliverResults_empty_trace (k : Nat) :
    (deliverResults k ⟨[], []⟩).trace =
      [LookupEvent.shouldCheckForDuplicates false,
        LookupEvent.deliverCompletionResults] ∧
    (deliverResults k ⟨[], []⟩).trace.countP isCompletionRequest = 0 ∧
    (deliverResults k ⟨[], []⟩).trace.countP isConfigCall = 1 :=
  ⟨rfl, rfl, rfl⟩

/-- Claim C7: `deliverResults` walks the result list in order and, for each
result, issues its calls as one consecutive block — the expectation
installation followed by the four completion-request calls (availability,
literal, interop keyword, macro) in that fixed order — completing the block
before the next result's calls. -/
theorem deliverResults_call_order (k : Nat) (rs : List Result) :
    (deliverResults k ⟨rs, []⟩).trace =
      LookupEvent.shouldCheckForDuplicates (decide (1 < rs.length)) ::
        ((rs.map fun R =>
            [LookupEvent.setExpectedTypes [R.ExpectedTy]
                R.IsImplicitSingleExpressionReturn true,
              LookupEvent.addPoundAvailable k,
              LookupEvent.addPoundLiteralCompletions false,
              LookupEvent.addObjCPoundKeywordCompletions false,
              LookupEvent.getMacroCompletions false]).flatten
          ++ [LookupEvent.deliverCompletionResults]) := by
  rw [deliverResults_trace_eq]
  rfl

/-- Claim C8: each `setExpectedTypes` call issued by `deliverResults` installs
exactly the singleton expectation holding that result's expected type,
together with that result's implicit-single-expression-return flag and the
constant `true` non-void-expected flag, one call per result in list order. -/
theorem deliverResults_expectation_per_result (k : Nat) (rs : List Result) :
    setExpectedTypesCalls (deliverResults k ⟨rs, []⟩).trace =
      rs.map fun R =>
        ([R.ExpectedTy], R.IsImplicitSingleExpressionReturn, true) := by
  rw [deliverResults_trace_eq, List.nil_append, setExpectedTypesCalls_append,
    setExpectedTypesCalls_append, setExpectedTypesCalls_loop]
  simp [setExpectedTypesCalls]

/-- Claim C9: the deduplication scan dereferences each stored result's
`ExpectedTy`, and a null expected type is stored without any check; when every
derived expected type is non-null, `sawSolutionImpl` always succeeds and keeps
every stored type non-null, while without that precondition a first call can
store a null type and a second call then dereferences it (crash, modelled as
`none`). -/
theorem sawSolution_null_safety :
    (∀ (rs : List Result) (t : SwiftType) (f a : Bool),
        (∀ r ∈ rs, r.ExpectedTy.isSome) →
        ∃ rs', sawSolutionImpl rs (some t) f a = some rs' ∧
          ∀ r ∈ rs', r.ExpectedTy.isSome) ∧
    sawSolutionImpl [] none false false = some [⟨none, false, false⟩] ∧
    sawSolutionImpl [⟨none, false, false⟩] (some ⟨0⟩) false false = none := by
  refine ⟨?_, rfl, rfl⟩
  intro rs t f a hnn
  have hex : ∀ r ∈ rs,
      ∃ b, (fun R => isEqualDeref R.ExpectedTy (some t)) r = some b := by
    intro r hr
    obtain ⟨x, hx⟩ := Option.isSome_iff_exists.mp (hnn r hr)
    exact ⟨decide (x = t), by simp [isEqualDeref, hx]⟩
  obtain ⟨b, hb⟩ := anyOfM_isSome _ rs hex
  cases b
  · refine ⟨rs ++ [⟨some t, f, a⟩], ?_, ?_⟩
    · unfold sawSolutionImpl; rw [hb]
    · intro r hr
      rcases List.mem_append.mp hr with h | h
      · exact hnn r h
      · simp only [List.mem_singleton] at h
        subst h
        rfl
  · exact ⟨rs, by unfold sawSolutionImpl; rw [hb], hnn⟩

/-- Witness for claim C9: a concrete non-null state where recording succeeds
and keeps all stored types non-null. -/
theorem sawSolution_null_safety_witness :
    ∃ rs', sawSolutionImpl [⟨some ⟨1⟩, false, false⟩] (some ⟨0⟩) false false
        = some rs' ∧ ∀ r ∈ rs', r.ExpectedTy.isSome :=
  sawSolution_null_safety.1 [⟨some ⟨1⟩, false, false⟩] ⟨0⟩ false false
    (by decide)

/-- Claim C10: `deliverResults` leaves the collected result list untouched and
issues the hand-off to `deliverCompletionResults` exactly once, as the last
call after the whole per-result loop, also when the result list is empty. -/
theorem deliverResults_delivers_once (k : Nat) (rs : List Result) :
    (deliverResults k ⟨rs, []⟩).Results = rs ∧
    (deliverResults k ⟨rs, []⟩).trace.countP isDeliverCall = 1 ∧
    ∃ pre, (deliverResults k ⟨rs, []⟩).trace =
        pre ++ [LookupEvent.deliverCompletionResults] ∧
      pre.countP isDeliverCall = 0 := by
  refine ⟨deliverResults_Results_eq k ⟨rs, []⟩, ?_, ?_⟩
  · rw [deliverResults_trace_eq, List.nil_append, List.countP_append,
      List.countP_append, countP_deliver_loop]
    simp [isDeliverCall, List.countP_cons]
  · refine ⟨[LookupEvent.shouldCheckForDuplicates (decide (1 < rs.length))]
        ++ (rs.map (perResultCalls k)).flatten, ?_, ?_⟩
    · rw [deliverResults_trace_eq]
      simp [List.append_assoc]
    · rw [List.countP_append, countP_deliver_loop]
      simp [isDeliverCall, List.countP_cons]

end AfterPoundExprCompletion
